import Mathlib

/-!
Verification of the CSV-normalization core of the Thailand-inflation dashboard
(`streamlit_app.py`).

The program loads two CSV files into dataframes, renames a year-synonym column
to `Year` (coercing date strings to years in the history loader), renames a
value-synonym column to a canonical value name, sorts by year, and merges the
two normalized tables on year with a History/Forecast tag.

The shallow embedding below models a dataframe after `pd.read_csv` as a header
of column names plus rows of cells.  A cell is a rational number, a string, or
missing (`NaN`).  Columns produced by `read_csv` are homogeneous: a column that
contains a string has object dtype (non-numeric), a column of numbers and
holes has a numeric dtype.  Library calls (`pd.to_datetime`,
`df.sort_values`, `df.rename`, `pd.merge`) are modelled by executable Lean
functions with the semantics pandas gives them on such tables.
-/

/-- Decidable equality of `Except` results, used to state concrete runs of the
loaders. -/
instance {ε α : Type} [DecidableEq ε] [DecidableEq α] : DecidableEq (Except ε α)
  | .ok a, .ok b =>
    match decEq a b with
    | isTrue h => isTrue (by rw [h])
    | isFalse h => isFalse (fun hc => h (by cases hc; rfl))
  | .error a, .error b =>
    match decEq a b with
    | isTrue h => isTrue (by rw [h])
    | isFalse h => isFalse (fun hc => h (by cases hc; rfl))
  | .ok _, .error _ => isFalse (fun hc => by cases hc)
  | .error _, .ok _ => isFalse (fun hc => by cases hc)

namespace ThaiInflation

/-- A cell of a loaded CSV table: a number (pandas numeric value), a string
(object dtype), or a missing value (`NaN`). -/
inductive Val where
  | num (q : ℚ)
  | str (s : String)
  | missing
deriving DecidableEq

/-- Is this cell a string? -/
def Val.isStr : Val → Bool
  | .str _ => true
  | _ => false

/-- A dataframe as produced by `pd.read_csv`: column names and rows of cells. -/
structure Table where
  header : List String
  rows : List (List Val)
deriving DecidableEq

/-- ASCII lower-casing of one character (models `str.lower` on the ASCII
column names the app deals with). -/
def lowerChar (c : Char) : Char :=
  if 65 ≤ c.toNat ∧ c.toNat ≤ 90 then Char.ofNat (c.toNat + 32) else c

/-- Whitespace test for `str.strip`. -/
def isSpaceChar (c : Char) : Bool :=
  c = ' ' || c = '\t' || c = '\n' || c = '\r'

/-- Drop leading and trailing whitespace from a character list. -/
def trimChars (cs : List Char) : List Char :=
  ((cs.dropWhile isSpaceChar).reverse.dropWhile isSpaceChar).reverse

/-- `c.lower().strip()` from the source: lower-case then trim. -/
def lowerTrim (s : String) : String :=
  String.mk (trimChars (s.data.map lowerChar))

/-- Decimal digit test. -/
def isDigitChar (c : Char) : Bool :=
  48 ≤ c.toNat && c.toNat ≤ 57

/-- Value of a non-empty all-digit character list. -/
def digitsVal (cs : List Char) : Option Nat :=
  if cs ≠ [] ∧ cs.all isDigitChar then
    some (cs.foldl (fun n c => n * 10 + (c.toNat - 48)) 0)
  else none

/-- Split a character list on `-`. -/
def splitOnDash : List Char → List (List Char)
  | [] => [[]]
  | c :: cs =>
    let r := splitOnDash cs
    if c = '-' then [] :: r
    else
      match r with
      | [] => [[c]]
      | g :: gs => (c :: g) :: gs

/-- Models `pd.to_datetime(x, errors="coerce").dt.year` on one string: an
ISO-like `YYYY-MM-DD` date (or a bare 4-digit year, which pandas reads as
January 1 of that year) yields its year; anything else fails to parse. -/
def parseDateYear (s : String) : Option Int :=
  match splitOnDash (trimChars s.data) with
  | [y] =>
    match digitsVal y with
    | some n => if y.length = 4 then some (n : Int) else none
    | none => none
  | [y, m, d] =>
    match digitsVal y, digitsVal m, digitsVal d with
    | some ny, some nm, some nd =>
      if y.length = 4 ∧ 1 ≤ nm ∧ nm ≤ 12 ∧ 1 ≤ nd ∧ nd ≤ 31 then some (ny : Int)
      else none
    | _, _, _ => none
  | _ => none

/-- One cell of the year column under
`pd.to_datetime(col, errors="coerce").dt.year`: strings that parse as dates
become their year, strings that fail to parse become missing (`NaT`/`NaN`),
missing stays missing.  A numeric cell cannot occur here: the column is only
coerced when it is non-numeric, and `read_csv` never mixes numbers into an
object column, so the `num` case is unreachable and mapped to missing. -/
def coerceDateCell : Val → Val
  | .str s =>
    match parseDateYear s with
    | some y => .num (y : ℚ)
    | none => .missing
  | .num _ => .missing
  | .missing => .missing

/-- One insertion into the Python dict `{c.lower().strip(): c}`: an existing
key keeps its position but takes the new value, a new key goes to the end. -/
def dictStep (acc : List (String × String)) (c : String) : List (String × String) :=
  if acc.any (fun kv => kv.1 = lowerTrim c) then
    acc.map (fun kv => if kv.1 = lowerTrim c then (lowerTrim c, c) else kv)
  else acc ++ [(lowerTrim c, c)]

/-- The `{c.lower().strip(): c for c in df.columns}` dictionary as an ordered
association list, with Python dict insertion semantics. -/
def colsDict (hdr : List String) : List (String × String) :=
  hdr.foldl dictStep []

/-- Index of the first column with a given name, `none` if absent. -/
def idxOf : List String → String → Option Nat
  | [], _ => none
  | c :: cs, d => if c = d then some 0 else (idxOf cs d).map (· + 1)

/-- `df[c]`: the column named `c` (first occurrence), empty if absent.  Cells
beyond a row's length read as missing. -/
def getCol (t : Table) (c : String) : List Val :=
  match idxOf t.header c with
  | none => []
  | some i => t.rows.map (fun r => r.getD i Val.missing)

/-- `np.issubdtype(col.dtype, np.number)` for a `read_csv` column: the dtype
is numeric exactly when no cell is a string. -/
def numericCol (vs : List Val) : Bool :=
  vs.all (fun v => !v.isStr)

/-- `df[c] = f(df[c])`: apply `f` to every cell of column `c`. -/
def mapCol (t : Table) (c : String) (f : Val → Val) : Table :=
  match idxOf t.header c with
  | none => t
  | some i => { t with rows := t.rows.map (fun r => r.set i (f (r.getD i Val.missing))) }

/-- `df.rename(columns={old: nw})`: every header entry equal to `old` becomes
`nw`; rows are untouched. -/
def renameCol (t : Table) (old nw : String) : Table :=
  { t with header := t.header.map (fun c => if c = old then nw else c) }

/-- Number of columns carrying exactly the label `c` (pandas raises on
`sort_values` when this is not 1 for the sort key). -/
def countName (hdr : List String) (c : String) : Nat :=
  (hdr.filter (fun d => d = c)).length

/-- Ordering of two sort keys under `df.sort_values`: numbers ascending,
strings lexicographically, missing values last (`na_position="last"`). -/
def charListLe : List Char → List Char → Bool
  | [], _ => true
  | _ :: _, [] => false
  | a :: as, b :: bs =>
    if a.toNat < b.toNat then true
    else if b.toNat < a.toNat then false
    else charListLe as bs

/-- Comparison of two cells used as sort keys. -/
def valKeyLe : Val → Val → Bool
  | .num a, .num b => decide (a ≤ b)
  | .num _, .str _ => true
  | .num _, .missing => true
  | .str _, .num _ => false
  | .str a, .str b => charListLe a.data b.data
  | .str _, .missing => true
  | .missing, .missing => true
  | .missing, .num _ => false
  | .missing, .str _ => false

/-- The sort key of a row: its cell in the (first) `Year` column. -/
def yearKeyCell (hdr : List String) (r : List Val) : Val :=
  match idxOf hdr "Year" with
  | none => Val.missing
  | some i => r.getD i Val.missing

/-- Row comparison for `df.sort_values("Year")`. -/
def rowLe (hdr : List String) (a b : List Val) : Prop :=
  valKeyLe (yearKeyCell hdr a) (yearKeyCell hdr b) = true

instance (hdr : List String) : DecidableRel (rowLe hdr) :=
  fun a b => inferInstanceAs (Decidable (_ = true))

/-- `df.sort_values("Year").reset_index(drop=True)`: sort rows by year key. -/
def sortByYear (t : Table) : Table :=
  { t with rows := t.rows.insertionSort (rowLe t.header) }

/-- The value-column rename loop: `for k in list(cols): if k in candidates:
df.rename(columns={cols[k]: target})`. -/
def vrFold (cols : List (String × String)) (cands : List String) (target : String)
    (t : Table) : Table :=
  cols.foldl (fun acc kv => if kv.1 ∈ cands then renameCol acc kv.2 target else acc) t

/-- The year coercion step: if the loader coerces and the year column is not
numeric, run the date-to-year conversion on it. -/
def coerceStage (doCoerce : Bool) (yc : String) (t : Table) : Table :=
  if doCoerce && !numericCol (getCol t yc) then mapCol t yc coerceDateCell else t

/-- The two-column fallback: if the canonical value name is absent and there
are exactly two columns, rename the non-`Year` column; taking the head of an
empty candidate list is the `IndexError` the source would hit. -/
def fallbackStage (target : String) (t3 : Table) : Option Table :=
  if t3.header.contains target then some t3
  else if t3.header.length = 2 then
    match t3.header.filter (fun c => ¬ c = "Year") with
    | [] => none
    | c :: _ => some (renameCol t3 c target)
  else some t3

/-- The year column the loader picks: value of the first synonym key in the
lower-cased column dictionary. -/
def yearColOf (syns : List String) (hdr : List String) : Option String :=
  ((colsDict hdr).find? (fun kv => kv.1 ∈ syns)).map (fun kv => kv.2)

/-- How a normalization run can fail: the explicit `ValueError` for a missing
year column (the spec's schema error), the `IndexError` of the two-column
fallback, and the pandas error for sorting on a duplicated label. -/
inductive LoadError where
  | schema
  | index
  | dupLabel
deriving DecidableEq

/-- The shared shape of `load_csv` and of the forecast normalization inside
`load_history_and_forecast`: find a year column among `syns` (else the schema
error), optionally coerce dates to years, rename it to `Year`, rename value
candidates to `target`, apply the two-column fallback, and sort by year. -/
def normalizeWith (syns cands : List String) (target : String) (doCoerce : Bool)
    (t : Table) : Except LoadError Table :=
  match yearColOf syns t.header with
  | none => .error .schema
  | some yc =>
    match fallbackStage target
        (vrFold (colsDict t.header) cands target
          (renameCol (coerceStage doCoerce yc t) yc "Year")) with
    | none => .error .index
    | some t4 =>
      if countName t4.header "Year" = 1 then .ok (sortByYear t4) else .error .dupLabel

/-- Year synonyms of `load_csv` (line 21). -/
def yearSynsHist : List String := ["year", "years", "date", "time", "period"]

/-- Year synonyms of the forecast branch (line 53): note `"time"` is absent. -/
def yearSynsForecast : List String := ["year", "years", "date", "period"]

/-- Value-column synonyms of `load_csv` (lines 34–35). -/
def value_candidates : List String :=
  ["inflation", "inflation_yoy", "headline_inflation", "value", "rate", "yoy",
   "inflation_yoy_percent", "inflation_yoy_%"]

/-- Forecast-column synonyms (line 59). -/
def f_candidates : List String :=
  ["forecast", "pred", "prediction", "yhat", "predicted"]

/-- `load_csv` (lines 16–44), applied to the table `pd.read_csv` produced. -/
def load_csv (t : Table) : Except LoadError Table :=
  normalizeWith yearSynsHist value_candidates "Inflation_YoY" true t

/-- The forecast normalization of `load_history_and_forecast` (lines 50–69):
same shape as `load_csv` but without the date coercion, without `"time"`, and
targeting `Forecast`. -/
def normalizeForecast (t : Table) : Except LoadError Table :=
  normalizeWith yearSynsForecast f_candidates "Forecast" false t

/-- `load_history_and_forecast` (lines 46–69). -/
def load_history_and_forecast (h f : Table) : Except LoadError (Table × Table) := do
  let hist ← load_csv h
  let fc ← normalizeForecast f
  return (hist, fc)

/-- The claim's own reading of "the first match": the first column whose
lower-cased, trimmed name is a synonym.  Stated from the spec's words, to be
compared with `yearColOf`. -/
def firstYearSynCol (syns : List String) (hdr : List String) : Option String :=
  hdr.find? (fun c => lowerTrim c ∈ syns)

/-- The coerced year values of the original table: what the year column holds
after the (conditional) date-to-year step. -/
def coercedYears (t : Table) (yc : String) : List Val :=
  if numericCol (getCol t yc) then getCol t yc else (getCol t yc).map coerceDateCell

/-- Parse a CSV field back as a number, the way `read_csv` type inference
does: optional sign, digits, optional fractional part. -/
def parseNumChars (cs : List Char) : Option ℚ :=
  let neg := cs.head? = some '-'
  let b := if neg then cs.drop 1 else cs
  match splitOnDot b with
  | [w] => (digitsVal w).map (fun n => if neg then -(n : ℚ) else (n : ℚ))
  | [w, fr] =>
    match digitsVal w, digitsVal fr with
    | some nw, some nf =>
      let q : ℚ := (nw : ℚ) + (nf : ℚ) / ((10 : ℚ) ^ fr.length)
      some (if neg then -q else q)
    | _, _ => none
  | _ => none
where
  splitOnDot : List Char → List (List Char)
    | [] => [[]]
    | c :: cs =>
      let r := splitOnDot cs
      if c = '.' then [] :: r
      else
        match r with
        | [] => [[c]]
        | g :: gs => (c :: g) :: gs

/-- One cell after `df.to_csv(...)` followed by `pd.read_csv`: numbers and
missing values survive (pandas prints floats so that they read back equal, a
missing value prints as the empty field and reads back as `NaN`); a string
field reads back as a number when it looks like one, as missing when empty,
and as itself otherwise. -/
def readBackCell : Val → Val
  | .num q => .num q
  | .missing => .missing
  | .str s =>
    if s = "" then .missing
    else
      match parseNumChars (trimChars s.data) with
      | some q => .num q
      | none => .str s

/-- The whole table written by `st.download_button`'s `to_csv` and read back
by `read_csv`. -/
def readBack (t : Table) : Table :=
  { t with rows := t.rows.map (fun r => r.map readBackCell) }

/-- The (year, value) pairs of a normalized table. -/
def pairsOf (t : Table) : List (Val × Val) :=
  (getCol t "Year").zip (getCol t "Inflation_YoY")

/-- One row of the outer merge before tagging: a year and the value from each
side, `none` when that side has no row for the year. -/
structure MRow where
  year : Int
  histVal : Option Val
  fcVal : Option Val
deriving DecidableEq

/-- One row of `merged_df` after tagging. -/
structure TaggedRow where
  year : Int
  histVal : Option Val
  fcVal : Option Val
  tag : String
deriving DecidableEq

/-- `pd.merge(hist_df, fc_df, on="Year", how="outer")` on two normalized
two-column tables viewed as (year, value) lists: every history row paired
with the matching forecast rows (alone when there is none), then the
unmatched forecast rows. -/
def outerMergeRows (hist fc : List (Int × Val)) : List MRow :=
  (hist.flatMap fun h =>
    let ms := fc.filter (fun p => decide (p.1 = h.1))
    if ms.isEmpty then [⟨h.1, some h.2, none⟩]
    else ms.map (fun p => ⟨h.1, some h.2, some p.2⟩))
  ++ ((fc.filter (fun p => !hist.any (fun h => decide (h.1 = p.1)))).map
      (fun p => ⟨p.1, none, some p.2⟩))

/-- `int(hist_df["Year"].max())` on a nonempty year list. -/
def maxYearOf : List (Int × Val) → Int
  | [] => 0
  | p :: ps => ps.foldl (fun m q => max m q.1) p.1

instance : DecidableRel (fun a b : MRow => a.year ≤ b.year) :=
  fun a b => Int.decLe _ _

/-- `merged_df` (lines 97–99): outer merge, sort by year, tag each row
`"History"` when its year is at most the maximum history year, else
`"Forecast"`. -/
def mergedView (hist fc : List (Int × Val)) : List TaggedRow :=
  ((outerMergeRows hist fc).insertionSort (fun a b => a.year ≤ b.year)).map
    (fun r =>
      ⟨r.year, r.histVal, r.fcVal,
        if r.year ≤ maxYearOf hist then "History" else "Forecast"⟩)

/-! ### Order properties of the sort key -/

theorem charListLe_total : ∀ (a b : List Char), charListLe a b = true ∨ charListLe b a = true
  | [], _ => Or.inl rfl
  | _ :: _, [] => Or.inr rfl
  | a :: as, b :: bs => by
    unfold charListLe
    rcases Nat.lt_trichotomy a.toNat b.toNat with h | h | h
    · left; simp [h]
    · have h1 : ¬ a.toNat < b.toNat := by omega
      have h2 : ¬ b.toNat < a.toNat := by omega
      rcases charListLe_total as bs with ih | ih
      · left; simp [h1, h2, ih]
      · right; simp [h1, h2, ih]
    · right; simp [h, Nat.lt_asymm h]

theorem charListLe_trans : ∀ {a b c : List Char}, charListLe a b = true →
    charListLe b c = true → charListLe a c = true
  | [], _, _, _, _ => rfl
  | _ :: _, [], _, h, _ => by simp [charListLe] at h
  | _ :: _, _ :: _, [], _, h => by simp [charListLe] at h
  | a :: as, b :: bs, c :: cs, h1, h2 => by
    unfold charListLe at h1 h2 ⊢
    rcases Nat.lt_trichotomy a.toNat c.toNat with h | h | h
    · simp [h]
    · have hac1 : ¬ a.toNat < c.toNat := by omega
      have hac2 : ¬ c.toNat < a.toNat := by omega
      simp only [if_neg hac1, if_neg hac2]
      by_cases hab : a.toNat < b.toNat
      · have hcb : c.toNat < b.toNat := by omega
        have hbc : ¬ b.toNat < c.toNat := by omega
        simp [hbc, hcb] at h2
      · by_cases hba : b.toNat < a.toNat
        · simp [hab, hba] at h1
        · have hbc : ¬ b.toNat < c.toNat := by omega
          have hcb : ¬ c.toNat < b.toNat := by omega
          simp only [if_neg hab, if_neg hba] at h1
          simp only [if_neg hbc, if_neg hcb] at h2
          exact charListLe_trans h1 h2
    · exfalso
      by_cases hab : a.toNat < b.toNat
      · by_cases hbc : b.toNat < c.toNat
        · omega
        · have hcb : c.toNat < b.toNat := by omega
          simp [hbc, hcb] at h2
      · by_cases hba : b.toNat < a.toNat
        · simp [hab, hba] at h1
        · have hbc : ¬ b.toNat < c.toNat := by omega
          have hcb : c.toNat < b.toNat := by omega
          simp [hbc, hcb] at h2

theorem valKeyLe_total (a b : Val) : valKeyLe a b = true ∨ valKeyLe b a = true := by
  cases a <;> cases b <;> simp [valKeyLe]
  · exact le_total _ _
  · exact charListLe_total _ _

theorem valKeyLe_trans {a b c : Val} (h1 : valKeyLe a b = true) (h2 : valKeyLe b c = true) :
    valKeyLe a c = true := by
  cases a <;> cases b <;> cases c <;>
    simp only [valKeyLe, decide_eq_true_eq] at h1 h2 ⊢ <;>
    first
      | rfl
      | trivial
      | exact absurd h1 (by decide)
      | exact absurd h2 (by decide)
      | exact le_trans h1 h2
      | exact charListLe_trans h1 h2

instance (hdr : List String) : IsTotal (List Val) (rowLe hdr) :=
  ⟨fun a b => valKeyLe_total (yearKeyCell hdr a) (yearKeyCell hdr b)⟩

instance (hdr : List String) : IsTrans (List Val) (rowLe hdr) :=
  ⟨fun _ _ _ h1 h2 => valKeyLe_trans h1 h2⟩

/-! ### Basic facts about the table operations -/

theorem renameCol_rows (t : Table) (a b : String) : (renameCol t a b).rows = t.rows := rfl

theorem renameCol_header (t : Table) (a b : String) :
    (renameCol t a b).header = t.header.map (fun c => if c = a then b else c) := rfl

theorem mapCol_header (t : Table) (c : String) (f : Val → Val) :
    (mapCol t c f).header = t.header := by
  unfold mapCol
  cases idxOf t.header c <;> rfl

theorem mapCol_rows_length (t : Table) (c : String) (f : Val → Val) :
    (mapCol t c f).rows.length = t.rows.length := by
  unfold mapCol
  cases idxOf t.header c <;> simp

theorem coerceStage_header (co : Bool) (yc : String) (t : Table) :
    (coerceStage co yc t).header = t.header := by
  unfold coerceStage
  split
  · exact mapCol_header t yc coerceDateCell
  · rfl

theorem coerceStage_rows_length (co : Bool) (yc : String) (t : Table) :
    (coerceStage co yc t).rows.length = t.rows.length := by
  unfold coerceStage
  split
  · exact mapCol_rows_length t yc coerceDateCell
  · rfl

theorem sortByYear_header (t : Table) : (sortByYear t).header = t.header := rfl

theorem sortByYear_rows (t : Table) :
    (sortByYear t).rows = t.rows.insertionSort (rowLe t.header) := rfl

/-! ### The value-rename loop as a map on the header -/

/-- The cumulative effect of the value-rename loop on one header entry. -/
def vrName (cols : List (String × String)) (cands : List String) (target : String)
    (c : String) : String :=
  cols.foldl
    (fun name kv => if kv.1 ∈ cands then (if name = kv.2 then target else name) else name) c

theorem vrName_cons (kv : String × String) (cols : List (String × String))
    (cands : List String) (target : String) (c : String) :
    vrName (kv :: cols) cands target c
      = vrName cols cands target (if kv.1 ∈ cands then (if c = kv.2 then target else c) else c) :=
  rfl

theorem vrFold_cons (kv : String × String) (cols : List (String × String))
    (cands : List String) (target : String) (t : Table) :
    vrFold (kv :: cols) cands target t
      = vrFold cols cands target (if kv.1 ∈ cands then renameCol t kv.2 target else t) :=
  rfl

theorem vrFold_rows (cands : List String) (target : String) :
    ∀ (cols : List (String × String)) (t : Table), (vrFold cols cands target t).rows = t.rows
  | [], _ => rfl
  | kv :: cols, t => by
    rw [vrFold_cons]
    by_cases h : kv.1 ∈ cands
    · rw [if_pos h, vrFold_rows cands target cols, renameCol_rows]
    · rw [if_neg h, vrFold_rows cands target cols]

theorem vrFold_header (cands : List String) (target : String) :
    ∀ (cols : List (String × String)) (t : Table),
      (vrFold cols cands target t).header = t.header.map (vrName cols cands target)
  | [], t => by
    show t.header = t.header.map (fun c => c)
    simp
  | kv :: cols, t => by
    rw [vrFold_cons]
    by_cases h : kv.1 ∈ cands
    · rw [if_pos h, vrFold_header cands target cols, renameCol_header, List.map_map]
      apply List.map_congr_left
      intro c _
      simp only [Function.comp_apply, vrName_cons, if_pos h]
    · rw [if_neg h, vrFold_header cands target cols]
      apply List.map_congr_left
      intro c _
      simp only [vrName_cons, if_neg h]

theorem vrName_or (cands : List String) (target : String) :
    ∀ (cols : List (String × String)) (c : String),
      vrName cols cands target c = c ∨ vrName cols cands target c = target
  | [], _ => Or.inl rfl
  | kv :: cols, c => by
    rw [vrName_cons]
    by_cases h : kv.1 ∈ cands
    · by_cases hc : c = kv.2
      · simp only [if_pos h, if_pos hc]
        rcases vrName_or cands target cols target with h' | h'
        · exact Or.inr h'
        · exact Or.inr h'
      · simp only [if_pos h, if_neg hc]
        exact vrName_or cands target cols c
    · simp only [if_neg h]
      exact vrName_or cands target cols c

theorem vrName_eq_year (cands : List String) (target : String) (hT : ¬ target = "Year")
    (hY : "year" ∉ cands) :
    ∀ (cols : List (String × String)), (∀ kv ∈ cols, kv.1 = lowerTrim kv.2) →
      ∀ c, (vrName cols cands target c = "Year" ↔ c = "Year")
  | [], _, c => Iff.rfl
  | kv :: cols, hk, c => by
    have hkv := hk kv (List.mem_cons_self _ _)
    have ih := vrName_eq_year cands target hT hY cols
      (fun x hx => hk x (List.mem_cons_of_mem _ hx))
    rw [vrName_cons, ih]
    by_cases h : kv.1 ∈ cands
    · by_cases hc : c = kv.2
      · simp only [if_pos h, if_pos hc]
        constructor
        · intro ht; exact absurd ht hT
        · intro hcy
          exfalso
          have h2 : kv.2 = "Year" := by rw [← hc, hcy]
          have h3 : kv.1 = "year" := by rw [hkv, h2]; decide
          exact hY (h3 ▸ h)
      · simp only [if_pos h, if_neg hc]
    · simp only [if_neg h]

/-! ### Invariants of the column dictionary -/

theorem dictStep_key {acc : List (String × String)} {c : String}
    (h : ∀ kv ∈ acc, kv.1 = lowerTrim kv.2) :
    ∀ kv ∈ dictStep acc c, kv.1 = lowerTrim kv.2 := by
  intro kv hkv
  unfold dictStep at hkv
  split at hkv
  · rcases List.mem_map.mp hkv with ⟨kv', hkv', heq⟩
    by_cases h1 : kv'.1 = lowerTrim c
    · rw [if_pos h1] at heq
      rw [← heq]
    · rw [if_neg h1] at heq
      rw [← heq]; exact h kv' hkv'
  · rcases List.mem_append.mp hkv with h1 | h1
    · exact h kv h1
    · rcases List.mem_singleton.mp h1 with rfl
      rfl

theorem foldl_dictStep_key : ∀ (l : List String) (acc : List (String × String)),
    (∀ kv ∈ acc, kv.1 = lowerTrim kv.2) →
    ∀ kv ∈ l.foldl dictStep acc, kv.1 = lowerTrim kv.2
  | [], _, h => h
  | c :: l, acc, h => by
    simp only [List.foldl_cons]
    exact foldl_dictStep_key l (dictStep acc c) (dictStep_key h)

theorem colsDict_key {hdr : List String} : ∀ kv ∈ colsDict hdr, kv.1 = lowerTrim kv.2 :=
  foldl_dictStep_key hdr [] (by simp)

theorem dictStep_val {acc : List (String × String)} {c : String} {S : List String}
    (h : ∀ kv ∈ acc, kv.2 ∈ S) (hc : c ∈ S) :
    ∀ kv ∈ dictStep acc c, kv.2 ∈ S := by
  intro kv hkv
  unfold dictStep at hkv
  split at hkv
  · rcases List.mem_map.mp hkv with ⟨kv', hkv', heq⟩
    by_cases h1 : kv'.1 = lowerTrim c
    · rw [if_pos h1] at heq
      rw [← heq]; exact hc
    · rw [if_neg h1] at heq
      rw [← heq]; exact h kv' hkv'
  · rcases List.mem_append.mp hkv with h1 | h1
    · exact h kv h1
    · rcases List.mem_singleton.mp h1 with rfl
      exact hc

theorem foldl_dictStep_val : ∀ (l : List String) (acc : List (String × String))
    (S : List String), (∀ kv ∈ acc, kv.2 ∈ S) → (∀ c ∈ l, c ∈ S) →
    ∀ kv ∈ l.foldl dictStep acc, kv.2 ∈ S
  | [], _, _, h, _ => h
  | c :: l, acc, S, h, hl => by
    simp only [List.foldl_cons]
    exact foldl_dictStep_val l (dictStep acc c) S
      (dictStep_val h (hl c (List.mem_cons_self _ _)))
      (fun x hx => hl x (List.mem_cons_of_mem _ hx))

theorem colsDict_val {hdr : List String} : ∀ kv ∈ colsDict hdr, kv.2 ∈ hdr :=
  foldl_dictStep_val hdr [] hdr (by simp) (fun _ h => h)

theorem dictStep_key_new (acc : List (String × String)) (c : String) :
    ∃ kv ∈ dictStep acc c, kv.1 = lowerTrim c := by
  unfold dictStep
  split
  next h =>
    rcases List.any_eq_true.mp h with ⟨kv₀, hkv₀, hk⟩
    rw [decide_eq_true_eq] at hk
    refine ⟨(lowerTrim c, c), ?_, rfl⟩
    refine List.mem_map.mpr ⟨kv₀, hkv₀, ?_⟩
    rw [if_pos hk]
  next h =>
    exact ⟨(lowerTrim c, c), List.mem_append_right _ (List.mem_singleton_self _), rfl⟩

theorem dictStep_key_old {acc : List (String × String)} {k : String}
    (h : ∃ kv ∈ acc, kv.1 = k) (c : String) :
    ∃ kv ∈ dictStep acc c, kv.1 = k := by
  rcases h with ⟨kv₀, hkv₀, hk⟩
  unfold dictStep
  split
  next ha =>
    by_cases h1 : kv₀.1 = lowerTrim c
    · refine ⟨(lowerTrim c, c), List.mem_map.mpr ⟨kv₀, hkv₀, by rw [if_pos h1]⟩, ?_⟩
      rw [← h1, hk]
    · exact ⟨kv₀, List.mem_map.mpr ⟨kv₀, hkv₀, by rw [if_neg h1]⟩, hk⟩
  next ha =>
    exact ⟨kv₀, List.mem_append_left _ hkv₀, hk⟩

theorem foldl_dictStep_keys : ∀ (l : List String) (acc : List (String × String)) {k : String},
    (∃ kv ∈ acc, kv.1 = k) → ∃ kv ∈ l.foldl dictStep acc, kv.1 = k
  | [], _, _, h => h
  | c :: l, acc, _, h => by
    simp only [List.foldl_cons]
    exact foldl_dictStep_keys l (dictStep acc c) (dictStep_key_old h c)

theorem foldl_dictStep_complete : ∀ (l : List String) (acc : List (String × String))
    {c : String}, c ∈ l → ∃ kv ∈ l.foldl dictStep acc, kv.1 = lowerTrim c
  | [], _, _, h => absurd h (List.not_mem_nil _)
  | x :: l, acc, c, h => by
    simp only [List.foldl_cons]
    rcases List.mem_cons.mp h with rfl | h
    · exact foldl_dictStep_keys l (dictStep acc c) (dictStep_key_new acc c)
    · exact foldl_dictStep_complete l (dictStep acc x) h

theorem colsDict_complete {hdr : List String} {c : String} (h : c ∈ hdr) :
    ∃ kv ∈ colsDict hdr, kv.1 = lowerTrim c :=
  foldl_dictStep_complete hdr [] h

/-! ### Index and label-count lemmas -/

theorem idxOf_eq_none : ∀ (l : List String) (c : String), idxOf l c = none ↔ c ∉ l
  | [], c => by simp [idxOf]
  | d :: l, c => by
    unfold idxOf
    by_cases h : d = c
    · simp [h]
    · rw [if_neg h, Option.map_eq_none', idxOf_eq_none l c]
      simp only [List.mem_cons, not_or]
      constructor
      · intro hn
        exact ⟨fun hc => h hc.symm, hn⟩
      · intro hn
        exact hn.2

theorem idxOf_isSome_of_mem {l : List String} {c : String} (h : c ∈ l) :
    ∃ i, idxOf l c = some i := by
  cases hi : idxOf l c with
  | none => exact absurd ((idxOf_eq_none l c).mp hi) (not_not_intro h)
  | some i => exact ⟨i, rfl⟩

theorem countName_cons (x : String) (l : List String) (c : String) :
    countName (x :: l) c = (if x = c then 1 else 0) + countName l c := by
  unfold countName
  rw [List.filter_cons]
  by_cases h : x = c
  · simp [h, Nat.add_comm]
  · simp [h]

theorem countName_pos {l : List String} {c : String} (h : c ∈ l) : 0 < countName l c := by
  unfold countName
  have hm : c ∈ l.filter (fun d => d = c) := List.mem_filter.mpr ⟨h, by simp⟩
  exact List.length_pos.mpr (List.ne_nil_of_mem hm)

theorem idxOf_map_year {F : String → String} {yc : String}
    (hF : ∀ c, F c = "Year" ↔ (c = yc ∨ c = "Year")) :
    ∀ (hdr : List String), countName (hdr.map F) "Year" = 1 → yc ∈ hdr →
      idxOf (hdr.map F) "Year" = idxOf hdr yc
  | [], _, hm => absurd hm (List.not_mem_nil _)
  | c :: hdr, hcount, hm => by
    by_cases hcyc : c = yc
    · subst hcyc
      have hc : F c = "Year" := (hF c).mpr (Or.inl rfl)
      show idxOf (F c :: hdr.map F) "Year" = idxOf (c :: hdr) c
      unfold idxOf
      rw [if_pos hc, if_pos rfl]
    · have hm' : yc ∈ hdr := by
        rcases List.mem_cons.mp hm with h | h
        · exact absurd h.symm hcyc
        · exact h
      by_cases hc : F c = "Year"
      · exfalso
        rw [List.map_cons, countName_cons, if_pos hc] at hcount
        have htail : countName (hdr.map F) "Year" = 0 := by omega
        have hpos : 0 < countName (hdr.map F) "Year" := by
          have hy : F yc = "Year" := (hF yc).mpr (Or.inl rfl)
          exact countName_pos (hy ▸ List.mem_map_of_mem F hm')
        omega
      · have hcount' : countName (hdr.map F) "Year" = 1 := by
          rw [List.map_cons, countName_cons, if_neg hc] at hcount
          omega
        show idxOf (F c :: hdr.map F) "Year" = idxOf (c :: hdr) yc
        unfold idxOf
        rw [if_neg hc, if_neg hcyc, idxOf_map_year hF hdr hcount' hm']

/-! ### Columns of a modified table -/

theorem getCol_eq (t : Table) {c : String} {i : Nat} (h : idxOf t.header c = some i) :
    getCol t c = t.rows.map (fun r => r.getD i Val.missing) := by
  unfold getCol
  rw [h]

theorem getD_set_self : ∀ (r : List Val) (i : Nat) (x d : Val),
    (r.set i x).getD i d = if i < r.length then x else d
  | [], i, x, d => by simp
  | _ :: _, 0, _, _ => by simp
  | v :: r, i + 1, x, d => by
    simp only [List.set_cons_succ, List.getD_cons_succ, List.length_cons]
    rw [getD_set_self r i x d]
    by_cases h : i < r.length
    · rw [if_pos h, if_pos (by omega)]
    · rw [if_neg h, if_neg (by omega)]

theorem getCol_mapCol_self (t : Table) (yc : String) :
    getCol (mapCol t yc coerceDateCell) yc = (getCol t yc).map coerceDateCell := by
  unfold mapCol
  cases hi : idxOf t.header yc with
  | none =>
    unfold getCol
    rw [hi]
    simp
  | some i =>
    rw [getCol_eq { t with rows := t.rows.map _ } hi, getCol_eq t hi]
    simp only [List.map_map]
    apply List.map_congr_left
    intro r _
    simp only [Function.comp_apply]
    rw [getD_set_self]
    by_cases h : i < r.length
    · rw [if_pos h]
    · rw [if_neg h, List.getD_eq_default _ _ (by omega)]
      rfl

theorem getCol_coerceStage (co : Bool) (yc : String) (t : Table) :
    getCol (coerceStage co yc t) yc
      = if co && !numericCol (getCol t yc) then (getCol t yc).map coerceDateCell
        else getCol t yc := by
  unfold coerceStage
  by_cases h : (co && !numericCol (getCol t yc)) = true
  · rw [if_pos h, if_pos h]
    exact getCol_mapCol_self t yc
  · rw [if_neg h, if_neg h]

/-! ### The two-column fallback as a Year-preserving header map -/

theorem fallbackStage_some {target : String} {t3 t4 : Table} (hT : ¬ target = "Year")
    (h : fallbackStage target t3 = some t4) :
    t4.rows = t3.rows ∧
      ∃ fbn : String → String, t4.header = t3.header.map fbn ∧
        ∀ c, (fbn c = "Year" ↔ c = "Year") := by
  unfold fallbackStage at h
  by_cases h1 : (t3.header.contains target) = true
  · rw [if_pos h1] at h
    cases h
    exact ⟨rfl, fun c => c, by simp, fun c => Iff.rfl⟩
  · rw [if_neg h1] at h
    by_cases h2 : t3.header.length = 2
    · rw [if_pos h2] at h
      cases hf : t3.header.filter (fun c => decide (¬ c = "Year")) with
      | nil =>
        rw [hf] at h
        exact absurd h (by simp)
      | cons c0 rest =>
        rw [hf] at h
        cases h
        have hc0 : ¬ c0 = "Year" := by
          have hm : c0 ∈ t3.header.filter (fun c => decide (¬ c = "Year")) := by
            rw [hf]
            exact List.mem_cons_self _ _
          have := List.of_mem_filter hm
          simpa using this
        refine ⟨rfl, fun c => if c = c0 then target else c, rfl, ?_⟩
        intro c
        constructor
        · intro hy
          dsimp only at hy
          by_cases hc : c = c0
          · rw [if_pos hc] at hy
            exact absurd hy hT
          · rw [if_neg hc] at hy
            exact hy
        · intro hy
          have hc : ¬ c = c0 := by
            rw [hy]
            intro hh
            exact hc0 hh.symm
          dsimp only
          rw [if_neg hc]
          exact hy
    · rw [if_neg h2] at h
      cases h
      exact ⟨rfl, fun c => c, by simp, fun c => Iff.rfl⟩

/-! ### Structure of a successful normalization run -/

theorem yearColOf_mem {syns : List String} {hdr : List String} {yc : String}
    (h : yearColOf syns hdr = some yc) : yc ∈ hdr := by
  unfold yearColOf at h
  cases hfind : (colsDict hdr).find? (fun kv => decide (kv.1 ∈ syns)) with
  | none =>
    rw [hfind] at h
    exact absurd h (by simp)
  | some kv =>
    rw [hfind] at h
    have hv : kv.2 = yc := by simpa using h
    exact hv ▸ colsDict_val kv (List.mem_of_find?_eq_some hfind)

theorem normalizeWith_ok {syns cands : List String} {target : String} {co : Bool}
    {t t' : Table} {yc : String}
    (hcand : "year" ∉ cands) (hT : ¬ target = "Year")
    (hyc : yearColOf syns t.header = some yc)
    (hok : normalizeWith syns cands target co t = .ok t') :
    t'.rows.length = t.rows.length ∧
    List.Sorted (rowLe t'.header) t'.rows ∧
    (getCol t' "Year").Perm (getCol (coerceStage co yc t) yc) ∧
    countName t'.header "Year" = 1 := by
  unfold normalizeWith at hok
  split at hok
  · exact absurd hok (by simp)
  next yc2 heq =>
    have hyceq : yc = yc2 := by
      rw [heq] at hyc
      exact (Option.some.inj hyc).symm
    subst hyceq
    split at hok
    next hfb =>
      exact absurd hok (by simp)
    next t4 hfb =>
      by_cases hcnt : countName t4.header "Year" = 1
      · rw [if_pos hcnt] at hok
        have ht' : t' = sortByYear t4 := by
          cases hok
          rfl
        subst ht'
        obtain ⟨hrows4, fbn, hhdr4, hfbn⟩ := fallbackStage_some hT hfb
        have hrows3 : t4.rows = (coerceStage co yc t).rows := by
          rw [hrows4, vrFold_rows, renameCol_rows]
        have hhdrF : t4.header
            = t.header.map (fun c =>
                fbn (vrName (colsDict t.header) cands target (if c = yc then "Year" else c))) := by
          rw [hhdr4, vrFold_header, renameCol_header, coerceStage_header, List.map_map,
            List.map_map]
          rfl
        have hFiff : ∀ c,
            (fbn (vrName (colsDict t.header) cands target (if c = yc then "Year" else c)) = "Year")
              ↔ (c = yc ∨ c = "Year") := by
          intro c
          rw [hfbn, vrName_eq_year cands target hT hcand (colsDict t.header) colsDict_key]
          by_cases hc : c = yc
          · simp [hc]
          · rw [if_neg hc]
            constructor
            · exact Or.inr
            · intro h
              rcases h with h | h
              · exact absurd h hc
              · exact h
        have hycmem : yc ∈ t.header := yearColOf_mem hyc
        have hidx : idxOf t4.header "Year" = idxOf t.header yc := by
          rw [hhdrF]
          exact idxOf_map_year hFiff t.header (by rw [← hhdrF]; exact hcnt) hycmem
        obtain ⟨i, hi⟩ := idxOf_isSome_of_mem hycmem
        have hi1 : idxOf (coerceStage co yc t).header yc = some i := by
          rw [coerceStage_header]
          exact hi
        have hi4 : idxOf (sortByYear t4).header "Year" = some i := by
          rw [sortByYear_header, hidx]
          exact hi
        refine ⟨?_, ?_, ?_, hcnt⟩
        · rw [sortByYear_rows, List.length_insertionSort, hrows3, coerceStage_rows_length]
        · rw [sortByYear_rows, sortByYear_header]
          exact List.sorted_insertionSort (rowLe t4.header) t4.rows
        · rw [getCol_eq _ hi4, getCol_eq _ hi1, sortByYear_rows, hrows3]
          exact (List.perm_insertionSort (rowLe t4.header) _).map _
      · rw [if_neg hcnt] at hok
        exact absurd hok (by simp)

/-! ### When the schema error is raised -/

theorem yearColOf_eq_none_iff (syns : List String) (hdr : List String) :
    yearColOf syns hdr = none ↔ ∀ c ∈ hdr, lowerTrim c ∉ syns := by
  unfold yearColOf
  rw [Option.map_eq_none', List.find?_eq_none]
  constructor
  · intro h c hc hsyn
    rcases colsDict_complete hc with ⟨kv, hkv, hk⟩
    exact h kv hkv (by rw [hk]; exact decide_eq_true hsyn)
  · intro h kv hkv hdec
    have h1 := colsDict_key kv hkv
    have h2 := colsDict_val kv hkv
    exact h kv.2 h2 (h1 ▸ of_decide_eq_true hdec)

theorem normalizeWith_schema_iff {syns cands : List String} {target : String} {co : Bool}
    {t : Table} :
    normalizeWith syns cands target co t = .error .schema
      ↔ ∀ c ∈ t.header, lowerTrim c ∉ syns := by
  rw [← yearColOf_eq_none_iff syns t.header]
  constructor
  · intro h
    cases hyc : yearColOf syns t.header with
    | none => rfl
    | some yc =>
      exfalso
      unfold normalizeWith at h
      split at h
      next heq =>
        rw [hyc] at heq
        exact Option.noConfusion heq
      next yc2 heq =>
        split at h
        next hfb => exact absurd h (by simp)
        next t4 hfb =>
          by_cases hcnt : countName t4.header "Year" = 1
          · rw [if_pos hcnt] at h
            exact absurd h (by simp)
          · rw [if_neg hcnt] at h
            exact absurd h (by simp)
  · intro h
    unfold normalizeWith
    rw [h]

/-! ### The dictionary when no two lower-cased names collide -/

theorem foldl_dictStep_nodup : ∀ (l : List String) (acc : List (String × String)),
    (l.map lowerTrim).Nodup →
    (∀ kv ∈ acc, ∀ c ∈ l, ¬ kv.1 = lowerTrim c) →
    l.foldl dictStep acc = acc ++ l.map (fun c => (lowerTrim c, c))
  | [], acc, _, _ => by simp
  | x :: l, acc, hnd, hdisj => by
    simp only [List.map_cons, List.nodup_cons] at hnd
    have hany : ¬ ((acc.any fun kv => decide (kv.1 = lowerTrim x)) = true) := by
      intro hc
      rcases List.any_eq_true.mp hc with ⟨kv, hkv, hd⟩
      exact hdisj kv hkv x (List.mem_cons_self _ _) (of_decide_eq_true hd)
    have hstep : dictStep acc x = acc ++ [(lowerTrim x, x)] := by
      unfold dictStep
      rw [if_neg hany]
    have hdisj' : ∀ kv ∈ acc ++ [(lowerTrim x, x)], ∀ c ∈ l, ¬ kv.1 = lowerTrim c := by
      intro kv hkv c hc
      rcases List.mem_append.mp hkv with hkv | hkv
      · exact hdisj kv hkv c (List.mem_cons_of_mem _ hc)
      · rcases List.mem_singleton.mp hkv with rfl
        intro he
        have he' : lowerTrim x = lowerTrim c := he
        exact hnd.1 (he' ▸ List.mem_map_of_mem lowerTrim hc)
    simp only [List.foldl_cons]
    rw [hstep, foldl_dictStep_nodup l (acc ++ [(lowerTrim x, x)]) hnd.2 hdisj',
      List.append_assoc]
    rfl

theorem colsDict_nodup {hdr : List String} (h : (hdr.map lowerTrim).Nodup) :
    colsDict hdr = hdr.map (fun c => (lowerTrim c, c)) := by
  unfold colsDict
  rw [foldl_dictStep_nodup hdr [] h (by simp)]
  rfl

theorem yearColOf_eq_first {syns : List String} {hdr : List String}
    (h : (hdr.map lowerTrim).Nodup) :
    yearColOf syns hdr = firstYearSynCol syns hdr := by
  unfold yearColOf firstYearSynCol
  rw [colsDict_nodup h, List.find?_map, Option.map_map]
  show (hdr.find? (fun c => decide (lowerTrim c ∈ syns))).map (fun c => c)
    = hdr.find? (fun c => decide (lowerTrim c ∈ syns))
  cases hdr.find? (fun c => decide (lowerTrim c ∈ syns)) <;> rfl

/-! ### Success never depends on the cell values -/

/-- Whether a normalization run returned a table. -/
def loadSucceeds (e : Except LoadError Table) : Bool :=
  match e with
  | .ok _ => true
  | .error _ => false

theorem fallbackStage_congr (target : String) {u v : Table} (h : u.header = v.header) :
    ((fallbackStage target u).isSome = (fallbackStage target v).isSome) ∧
    (∀ u4 v4, fallbackStage target u = some u4 → fallbackStage target v = some v4 →
      u4.header = v4.header) := by
  unfold fallbackStage
  rw [h]
  by_cases h1 : (v.header.contains target) = true
  · rw [if_pos h1, if_pos h1]
    refine ⟨rfl, ?_⟩
    intro u4 v4 hu hv
    cases hu
    cases hv
    exact h
  · rw [if_neg h1, if_neg h1]
    by_cases h2 : v.header.length = 2
    · rw [if_pos h2, if_pos h2]
      cases hf : v.header.filter (fun c => decide (¬ c = "Year")) with
      | nil =>
        refine ⟨rfl, ?_⟩
        intro u4 v4 hu hv
        exact absurd hu (by simp)
      | cons c0 rest =>
        refine ⟨rfl, ?_⟩
        intro u4 v4 hu hv
        cases hu
        cases hv
        rw [renameCol_header, renameCol_header, h]
    · rw [if_neg h2, if_neg h2]
      refine ⟨rfl, ?_⟩
      intro u4 v4 hu hv
      cases hu
      cases hv
      exact h

theorem normalizeWith_eq_some {syns cands : List String} {target : String} {co : Bool}
    (t : Table) {yc : String} (h : yearColOf syns t.header = some yc) :
    normalizeWith syns cands target co t
      = match fallbackStage target (vrFold (colsDict t.header) cands target
            (renameCol (coerceStage co yc t) yc "Year")) with
        | none => .error .index
        | some t4 =>
          if countName t4.header "Year" = 1 then .ok (sortByYear t4)
          else .error .dupLabel := by
  unfold normalizeWith
  rw [h]

theorem normalizeWith_eq_none {syns cands : List String} {target : String} {co : Bool}
    {t : Table} (h : yearColOf syns t.header = none) :
    normalizeWith syns cands target co t = .error .schema := by
  unfold normalizeWith
  rw [h]

theorem normalizeWith_succeeds_coerce (syns cands : List String) (target : String)
    (t : Table) :
    loadSucceeds (normalizeWith syns cands target true t)
      = loadSucceeds (normalizeWith syns cands target false t) := by
  cases hyc : yearColOf syns t.header with
  | none =>
    rw [normalizeWith_eq_none hyc, normalizeWith_eq_none hyc]
  | some yc =>
    rw [normalizeWith_eq_some t hyc, normalizeWith_eq_some t hyc]
    have hhdr : (vrFold (colsDict t.header) cands target
        (renameCol (coerceStage true yc t) yc "Year")).header
        = (vrFold (colsDict t.header) cands target
            (renameCol (coerceStage false yc t) yc "Year")).header := by
      rw [vrFold_header, vrFold_header, renameCol_header, renameCol_header,
        coerceStage_header, coerceStage_header]
    obtain ⟨hsome, hhdr4⟩ := fallbackStage_congr target hhdr
    cases hu : fallbackStage target (vrFold (colsDict t.header) cands target
        (renameCol (coerceStage true yc t) yc "Year")) with
    | none =>
      cases hv : fallbackStage target (vrFold (colsDict t.header) cands target
          (renameCol (coerceStage false yc t) yc "Year")) with
      | none => rfl
      | some v4 =>
        rw [hu, hv] at hsome
        exact absurd hsome (by simp)
    | some u4 =>
      cases hv : fallbackStage target (vrFold (colsDict t.header) cands target
          (renameCol (coerceStage false yc t) yc "Year")) with
      | none =>
        rw [hu, hv] at hsome
        exact absurd hsome (by simp)
      | some v4 =>
        have he := hhdr4 u4 v4 hu hv
        show loadSucceeds (if countName u4.header "Year" = 1 then Except.ok (sortByYear u4)
            else Except.error LoadError.dupLabel)
          = loadSucceeds (if countName v4.header "Year" = 1 then Except.ok (sortByYear v4)
            else Except.error LoadError.dupLabel)
        rw [he]
        by_cases hcnt : countName v4.header "Year" = 1
        · rw [if_pos hcnt, if_pos hcnt]
          rfl
        · rw [if_neg hcnt, if_neg hcnt]

/-! ### Success of a run with no value-synonym column and ≠ 2 columns -/

theorem vrName_id {cols : List (String × String)} {cands : List String} {target : String}
    (h : ∀ kv ∈ cols, kv.1 ∉ cands) : ∀ c, vrName cols cands target c = c := by
  induction cols with
  | nil => intro c; rfl
  | cons kv cols ih =>
    intro c
    rw [vrName_cons, if_neg (h kv (List.mem_cons_self _ _))]
    exact ih (fun x hx => h x (List.mem_cons_of_mem _ hx)) c

theorem normalizeWith_ok_of_no_candidate {syns cands : List String} {target : String}
    {co : Bool} {t : Table} {yc : String}
    (hT : ¬ target = "Year") (htl : lowerTrim target ∈ cands)
    (h1 : yearColOf syns t.header = some yc)
    (h2 : ∀ c ∈ t.header, lowerTrim c ∉ cands)
    (h3 : ¬ t.header.length = 2)
    (h4 : countName (t.header.map (fun c => if c = yc then "Year" else c)) "Year" = 1) :
    ∃ t', normalizeWith syns cands target co t = .ok t' ∧ ∀ c ∈ t'.header, ¬ c = target := by
  have hnocand : ∀ kv ∈ colsDict t.header, kv.1 ∉ cands := by
    intro kv hkv
    rw [colsDict_key kv hkv]
    exact h2 kv.2 (colsDict_val kv hkv)
  have hhdr3 : (vrFold (colsDict t.header) cands target
      (renameCol (coerceStage co yc t) yc "Year")).header
      = t.header.map (fun c => if c = yc then "Year" else c) := by
    rw [vrFold_header, renameCol_header, coerceStage_header, List.map_map]
    apply List.map_congr_left
    intro c _
    exact vrName_id hnocand _
  rw [normalizeWith_eq_some t h1]
  set X := vrFold (colsDict t.header) cands target
      (renameCol (coerceStage co yc t) yc "Year") with hX
  have hnoT : ∀ c ∈ X.header, ¬ c = target := by
    rw [hhdr3]
    intro c hc
    rcases List.mem_map.mp hc with ⟨c0, hc0, rfl⟩
    by_cases hcy : c0 = yc
    · rw [if_pos hcy]
      intro he
      exact hT he.symm
    · rw [if_neg hcy]
      intro he
      exact h2 c0 hc0 (by rw [he]; exact htl)
  have hcontains : ¬ (X.header.contains target = true) := fun hc =>
    hnoT _ (List.elem_iff.mp hc) rfl
  have hlen2 : ¬ (X.header.length = 2) := by
    rw [hhdr3, List.length_map]
    exact h3
  have hfb : fallbackStage target X = some X := by
    unfold fallbackStage
    rw [if_neg hcontains, if_neg hlen2]
  rw [hfb]
  have hcnt : countName X.header "Year" = 1 := by
    rw [hhdr3]
    exact h4
  refine ⟨sortByYear X, ?_, ?_⟩
  · show (if countName X.header "Year" = 1 then Except.ok (sortByYear X)
        else Except.error LoadError.dupLabel) = Except.ok (sortByYear X)
    rw [if_pos hcnt]
  · intro c hc
    exact hnoT c hc

/-! ### The merged view -/

theorem foldl_max_facts : ∀ (ps : List (Int × Val)) (init : Int),
    init ≤ ps.foldl (fun m q => max m q.1) init ∧
    (∀ p ∈ ps, p.1 ≤ ps.foldl (fun m q => max m q.1) init) ∧
    (ps.foldl (fun m q => max m q.1) init = init ∨
      ∃ p ∈ ps, ps.foldl (fun m q => max m q.1) init = p.1)
  | [], init => ⟨le_refl _, by simp, Or.inl rfl⟩
  | q :: ps, init => by
    simp only [List.foldl_cons]
    obtain ⟨ih1, ih2, ih3⟩ := foldl_max_facts ps (max init q.1)
    refine ⟨le_trans (le_max_left _ _) ih1, ?_, ?_⟩
    · intro p hp
      rcases List.mem_cons.mp hp with rfl | hp
      · exact le_trans (le_max_right _ _) ih1
      · exact ih2 p hp
    · rcases ih3 with h | ⟨p, hp, he⟩
      · rcases max_choice init q.1 with hm | hm
        · exact Or.inl (by rw [h, hm])
        · exact Or.inr ⟨q, List.mem_cons_self _ _, by rw [h, hm]⟩
      · exact Or.inr ⟨p, List.mem_cons_of_mem _ hp, he⟩

theorem maxYearOf_spec : ∀ {hist : List (Int × Val)}, hist ≠ [] →
    (∀ p ∈ hist, p.1 ≤ maxYearOf hist) ∧ ∃ p ∈ hist, maxYearOf hist = p.1
  | [], h => absurd rfl h
  | p0 :: ps, _ => by
    unfold maxYearOf
    obtain ⟨h1, h2, h3⟩ := foldl_max_facts ps p0.1
    constructor
    · intro p hp
      rcases List.mem_cons.mp hp with rfl | hp
      · exact h1
      · exact h2 p hp
    · rcases h3 with h | ⟨p, hp, he⟩
      · exact ⟨p0, List.mem_cons_self _ _, h⟩
      · exact ⟨p, List.mem_cons_of_mem _ hp, he⟩

theorem mem_outerMergeRows_year {hist fc : List (Int × Val)} {y : Int} :
    (∃ m ∈ outerMergeRows hist fc, m.year = y)
      ↔ (∃ p ∈ hist, p.1 = y) ∨ (∃ p ∈ fc, p.1 = y) := by
  constructor
  · rintro ⟨m, hm, rfl⟩
    unfold outerMergeRows at hm
    rcases List.mem_append.mp hm with hm | hm
    · rcases List.mem_flatMap.mp hm with ⟨h, hh, hmem⟩
      left
      by_cases he : (fc.filter (fun p => decide (p.1 = h.1))).isEmpty = true
      · rw [if_pos he] at hmem
        rcases List.mem_singleton.mp hmem with rfl
        exact ⟨h, hh, rfl⟩
      · rw [if_neg he] at hmem
        rcases List.mem_map.mp hmem with ⟨p, _, rfl⟩
        exact ⟨h, hh, rfl⟩
    · rcases List.mem_map.mp hm with ⟨p, hp, rfl⟩
      right
      exact ⟨p, List.mem_of_mem_filter hp, rfl⟩
  · intro h
    rcases h with ⟨p, hp, rfl⟩ | ⟨p, hp, rfl⟩
    · unfold outerMergeRows
      by_cases he : (fc.filter (fun q => decide (q.1 = p.1))).isEmpty = true
      · refine ⟨⟨p.1, some p.2, none⟩, ?_, rfl⟩
        apply List.mem_append_left
        apply List.mem_flatMap.mpr
        exact ⟨p, hp, by rw [if_pos he]; exact List.mem_singleton_self _⟩
      · have hne : fc.filter (fun q => decide (q.1 = p.1)) ≠ [] := by
          intro hnil
          rw [hnil] at he
          exact he rfl
        obtain ⟨q, hq⟩ := List.exists_mem_of_ne_nil _ hne
        refine ⟨⟨p.1, some p.2, some q.2⟩, ?_, rfl⟩
        apply List.mem_append_left
        apply List.mem_flatMap.mpr
        refine ⟨p, hp, ?_⟩
        rw [if_neg he]
        exact List.mem_map.mpr ⟨q, hq, rfl⟩
    · unfold outerMergeRows
      by_cases hex : ∃ h ∈ hist, h.1 = p.1
      · rcases hex with ⟨h0, hh0, hhy⟩
        have hpmem : p ∈ fc.filter (fun q => decide (q.1 = h0.1)) :=
          List.mem_filter.mpr ⟨hp, decide_eq_true hhy.symm⟩
        have hne : ¬ ((fc.filter (fun q => decide (q.1 = h0.1))).isEmpty = true) := by
          intro hie
          rw [List.isEmpty_iff] at hie
          rw [hie] at hpmem
          exact absurd hpmem (List.not_mem_nil _)
        refine ⟨⟨h0.1, some h0.2, some p.2⟩, ?_, hhy⟩
        apply List.mem_append_left
        apply List.mem_flatMap.mpr
        refine ⟨h0, hh0, ?_⟩
        rw [if_neg hne]
        exact List.mem_map.mpr ⟨p, hpmem, rfl⟩
      · refine ⟨⟨p.1, none, some p.2⟩, ?_, rfl⟩
        apply List.mem_append_right
        apply List.mem_map.mpr
        refine ⟨p, ?_, rfl⟩
        apply List.mem_filter.mpr
        refine ⟨hp, ?_⟩
        simp only [Bool.not_eq_true', List.any_eq_false, decide_eq_true_eq]
        intro x hx hxe
        exact hex ⟨x, hx, hxe⟩

theorem mem_mergedView_iff {hist fc : List (Int × Val)} {y : Int} :
    (∃ r ∈ mergedView hist fc, r.year = y)
      ↔ (∃ p ∈ hist, p.1 = y) ∨ (∃ p ∈ fc, p.1 = y) := by
  rw [← mem_outerMergeRows_year]
  unfold mergedView
  constructor
  · rintro ⟨r, hr, rfl⟩
    rcases List.mem_map.mp hr with ⟨m, hm, rfl⟩
    exact ⟨m, (List.mem_insertionSort _).mp hm, rfl⟩
  · rintro ⟨m, hm, rfl⟩
    exact ⟨⟨m.year, m.histVal, m.fcVal,
        if m.year ≤ maxYearOf hist then "History" else "Forecast"⟩,
      List.mem_map.mpr ⟨m, (List.mem_insertionSort _).mpr hm, rfl⟩, rfl⟩

theorem mergedView_tag {hist fc : List (Int × Val)} :
    ∀ r ∈ mergedView hist fc,
      r.tag = if r.year ≤ maxYearOf hist then "History" else "Forecast" := by
  intro r hr
  unfold mergedView at hr
  rcases List.mem_map.mp hr with ⟨m, _, rfl⟩
  rfl

/-! ### The CSV round trip -/

theorem readBackCell_id {v : Val} (h : v.isStr = false) : readBackCell v = v := by
  cases v with
  | num q => rfl
  | missing => rfl
  | str s => exact absurd h (by simp [Val.isStr])

theorem readBack_id {t : Table} (h : ∀ r ∈ t.rows, ∀ v ∈ r, v.isStr = false) :
    readBack t = t := by
  unfold readBack
  have hrows : t.rows.map (fun r => r.map readBackCell) = t.rows := by
    have h2 : ∀ r ∈ t.rows, r.map readBackCell = r := by
      intro r hr
      have h3 : ∀ v ∈ r, readBackCell v = v := fun v hv => readBackCell_id (h r hr v hv)
      calc r.map readBackCell = r.map id := List.map_congr_left h3
        _ = r := List.map_id r
    calc t.rows.map (fun r => r.map readBackCell) = t.rows.map id := List.map_congr_left h2
      _ = t.rows := List.map_id _
  rw [hrows]

/-! ## The claims -/

/-- Claim C1, counterexample.  The claim says that a table with a recognized
year column, more than two columns and no value-synonym column makes
normalization fail with a schema error.  On the code it does not fail:
`load_csv` has no error branch for an ambiguous value column, and this
three-column table is returned. -/
theorem c1_counterexample :
    2 < (Table.mk ["Year", "A", "B"] [[Val.num 2020, Val.num 1, Val.num 2]]).header.length
    ∧ (∀ c ∈ (Table.mk ["Year", "A", "B"] [[Val.num 2020, Val.num 1, Val.num 2]]).header,
        lowerTrim c ∉ value_candidates)
    ∧ load_csv (Table.mk ["Year", "A", "B"] [[Val.num 2020, Val.num 1, Val.num 2]])
        = .ok (Table.mk ["Year", "A", "B"] [[Val.num 2020, Val.num 1, Val.num 2]]) := by
  decide

/-- Claim C1, amended.  For a table with a recognized year-synonym column, no
value-synonym column and more than two columns, `load_csv` succeeds (provided
renaming the year column leaves a unique `Year` label, which sorting needs):
it returns the year-sorted table with no canonical `Inflation_YoY` column, and
raises no schema error. -/
theorem c1_amended (t : Table) (yc : String)
    (h1 : yearColOf yearSynsHist t.header = some yc)
    (h2 : ∀ c ∈ t.header, lowerTrim c ∉ value_candidates)
    (h3 : 2 < t.header.length)
    (h4 : countName (t.header.map (fun c => if c = yc then "Year" else c)) "Year" = 1) :
    ∃ t', load_csv t = .ok t' ∧ ∀ c ∈ t'.header, ¬ c = "Inflation_YoY" :=
  normalizeWith_ok_of_no_candidate (by decide) (by decide) h1 h2 (by omega) h4

/-- Claim C1, witness for the amended theorem at a concrete three-column
table with a `Period` year column. -/
theorem c1_witness :
    ∃ t', load_csv ⟨["Period", "X", "Y"], [[Val.num 2000, Val.num 1, Val.num 2]]⟩ = .ok t'
      ∧ ∀ c ∈ t'.header, ¬ c = "Inflation_YoY" :=
  c1_amended _ "Period" (by decide) (by decide) (by decide) (by decide)

/-- Claim C2, counterexample.  With columns `Year, x, YEAR` the lower-cased
lookup keeps the position of the first `year` key but the value of the last
column, so the `YEAR` column is taken, not the first match `Year`; the run
then dies on the duplicated `Year` label rather than returning anything. -/
theorem c2_counterexample :
    yearColOf yearSynsHist ["Year", "x", "YEAR"] = some "YEAR"
    ∧ firstYearSynCol yearSynsHist ["Year", "x", "YEAR"] = some "Year"
    ∧ ¬ ("YEAR" = "Year")
    ∧ load_csv ⟨["Year", "x", "YEAR"], [[Val.num 2020, Val.num 1, Val.num 2]]⟩
        = .error .dupLabel := by
  decide

/-- Claim C2, amended.  `load_csv` raises the schema error exactly when no
column's lower-cased trimmed name is a year synonym; and when no two columns
share the same lower-cased trimmed name, the chosen year column is the first
column whose lower-cased trimmed name matches. -/
theorem c2_amended (t : Table) :
    ((load_csv t = .error .schema) ↔ ∀ c ∈ t.header, lowerTrim c ∉ yearSynsHist)
    ∧ ((t.header.map lowerTrim).Nodup →
        yearColOf yearSynsHist t.header = firstYearSynCol yearSynsHist t.header) :=
  ⟨normalizeWith_schema_iff, fun h => yearColOf_eq_first h⟩

/-- Claim C2, witness: the amended theorem applied to a concrete `Date, Rate`
table whose lower-cased names are distinct. -/
theorem c2_witness :
    (load_csv ⟨["Date", "Rate"], [[Val.num 2020, Val.num 1]]⟩ = .error .schema
      ↔ ∀ c ∈ (["Date", "Rate"] : List String), lowerTrim c ∉ yearSynsHist)
    ∧ yearColOf yearSynsHist ["Date", "Rate"] = firstYearSynCol yearSynsHist ["Date", "Rate"] :=
  ⟨(c2_amended ⟨["Date", "Rate"], [[Val.num 2020, Val.num 1]]⟩).1,
   (c2_amended ⟨["Date", "Rate"], [[Val.num 2020, Val.num 1]]⟩).2 (by decide)⟩

/-- Claim C3, counterexample.  The claim says rows with missing year are
dropped.  They are not: `load_csv` never drops rows, and the unparseable date
`notadate` yields a missing year that survives into the output (sorted last). -/
theorem c3_counterexample :
    load_csv ⟨["Date", "Rate"],
        [[Val.str "notadate", Val.num 1], [Val.str "2020-01-01", Val.num 2]]⟩
      = .ok ⟨["Year", "Inflation_YoY"],
          [[Val.num 2020, Val.num 2], [Val.missing, Val.num 1]]⟩
    ∧ Val.missing ∈ getCol ⟨["Year", "Inflation_YoY"],
        [[Val.num 2020, Val.num 2], [Val.missing, Val.num 1]]⟩ "Year" := by
  decide

/-- Claim C3, amended.  The output of a successful `load_csv` run keeps every
input row (rows with missing year are retained, not dropped) and is sorted by
the year key, which places rows with non-missing year in ascending order and
rows with missing year after them. -/
theorem c3_amended (t t' : Table) (hok : load_csv t = .ok t') :
    t'.rows.length = t.rows.length ∧ List.Sorted (rowLe t'.header) t'.rows := by
  cases hyc : yearColOf yearSynsHist t.header with
  | none =>
    rw [show load_csv t = Except.error LoadError.schema from normalizeWith_eq_none hyc] at hok
    exact absurd hok (by simp)
  | some yc =>
    have h := normalizeWith_ok (by decide) (by decide) hyc hok
    exact ⟨h.1, h.2.1⟩

/-- Claim C3, witness for the amended theorem at a concrete unsorted numeric
table. -/
theorem c3_witness :
    (Table.mk ["Year", "Inflation_YoY"]
        [[Val.num 2020, Val.num 1], [Val.num 2021, Val.num 2]]).rows.length
      = (Table.mk ["Year", "Rate"]
        [[Val.num 2021, Val.num 2], [Val.num 2020, Val.num 1]]).rows.length
    ∧ List.Sorted (rowLe ["Year", "Inflation_YoY"])
        [[Val.num 2020, Val.num 1], [Val.num 2021, Val.num 2]] :=
  c3_amended ⟨["Year", "Rate"], [[Val.num 2021, Val.num 2], [Val.num 2020, Val.num 1]]⟩
    ⟨["Year", "Inflation_YoY"], [[Val.num 2020, Val.num 1], [Val.num 2021, Val.num 2]]⟩
    (by decide)

/-- Claim C4, counterexample.  A two-column table with a recognized year
column and a duplicated, non-integer year value normalizes successfully, and
the duplicate non-integer years survive: the output is neither
duplicate-free nor integer-valued. -/
theorem c4_counterexample :
    load_csv ⟨["Year", "Value"],
        [[Val.num (Rat.divInt 4041 2), Val.num 1], [Val.num (Rat.divInt 4041 2), Val.num 2]]⟩
      = .ok ⟨["Year", "Inflation_YoY"],
          [[Val.num (Rat.divInt 4041 2), Val.num 1], [Val.num (Rat.divInt 4041 2), Val.num 2]]⟩
    ∧ ¬ (getCol ⟨["Year", "Inflation_YoY"],
          [[Val.num (Rat.divInt 4041 2), Val.num 1],
           [Val.num (Rat.divInt 4041 2), Val.num 2]]⟩ "Year").Nodup
    ∧ (Rat.divInt 4041 2).den ≠ 1 := by
  decide

/-- Claim C4, amended.  For a two-column table with a recognized year-synonym
column, a successful `load_csv` run returns rows sorted (non-decreasingly) by
the year key — missing years last — and the output year column is a
permutation of the (coerced) input year values: duplicates and non-integer
years are preserved, not removed. -/
theorem c4_amended (t t' : Table) (yc : String) (hcols : t.header.length = 2)
    (hyc : yearColOf yearSynsHist t.header = some yc) (hok : load_csv t = .ok t') :
    List.Sorted (rowLe t'.header) t'.rows
    ∧ (getCol t' "Year").Perm (coercedYears t yc) := by
  have h := normalizeWith_ok (by decide) (by decide) hyc hok
  refine ⟨h.2.1, ?_⟩
  have hp := h.2.2.1
  rw [getCol_coerceStage] at hp
  unfold coercedYears
  by_cases hn : numericCol (getCol t yc) = true
  · rw [if_pos hn]
    simp only [hn] at hp
    simpa using hp
  · have hn' : numericCol (getCol t yc) = false := by
      cases hnn : numericCol (getCol t yc)
      · rfl
      · exact absurd hnn hn
    rw [if_neg hn]
    simp only [hn'] at hp
    simpa using hp

/-- Claim C4, witness for the amended theorem at a concrete two-column
table with a `Years` column. -/
theorem c4_witness :
    List.Sorted (rowLe ["Year", "Inflation_YoY"])
        [[Val.num 2020, Val.num 3], [Val.num 2022, Val.num 5]]
    ∧ (getCol ⟨["Year", "Inflation_YoY"],
          [[Val.num 2020, Val.num 3], [Val.num 2022, Val.num 5]]⟩ "Year").Perm
        (coercedYears ⟨["Years", "Value"],
          [[Val.num 2022, Val.num 5], [Val.num 2020, Val.num 3]]⟩ "Years") :=
  c4_amended ⟨["Years", "Value"], [[Val.num 2022, Val.num 5], [Val.num 2020, Val.num 3]]⟩
    ⟨["Year", "Inflation_YoY"], [[Val.num 2020, Val.num 3], [Val.num 2022, Val.num 5]]⟩
    "Years" (by decide) (by decide) (by decide)

/-- Claim C5.  For a nonempty history, `maxYearOf` is the maximum history
year, the merged view preserves exactly the years present in either source
(full outer join), and every merged row is tagged `History` when its year is
at most the maximum history year and `Forecast` otherwise. -/
theorem c5_merged_outer_join_tags (hist fc : List (Int × Val)) (hne : hist ≠ []) :
    ((∀ p ∈ hist, p.1 ≤ maxYearOf hist) ∧ ∃ p ∈ hist, maxYearOf hist = p.1)
    ∧ (∀ y : Int, (∃ r ∈ mergedView hist fc, r.year = y)
        ↔ (∃ p ∈ hist, p.1 = y) ∨ (∃ p ∈ fc, p.1 = y))
    ∧ (∀ r ∈ mergedView hist fc,
        r.tag = if r.year ≤ maxYearOf hist then "History" else "Forecast") :=
  ⟨maxYearOf_spec hne, fun _ => mem_mergedView_iff, mergedView_tag⟩

/-- Claim C5, witness: the spec's example.  History years 2020–2021 and
forecast years 2022–2023 merge into four rows tagged `History`, `History`,
`Forecast`, `Forecast`. -/
theorem c5_witness :
    (([(2020, Val.num (Rat.divInt 31 10)), (2021, Val.num (Rat.divInt 6 5))]
        : List (Int × Val)) ≠ [])
    ∧ (∀ r ∈ mergedView [(2020, Val.num (Rat.divInt 31 10)), (2021, Val.num (Rat.divInt 6 5))]
          [(2022, Val.num 1), (2023, Val.num 2)],
        r.tag = if r.year ≤ maxYearOf [(2020, Val.num (Rat.divInt 31 10)),
            (2021, Val.num (Rat.divInt 6 5))] then "History" else "Forecast")
    ∧ mergedView [(2020, Val.num (Rat.divInt 31 10)), (2021, Val.num (Rat.divInt 6 5))]
          [(2022, Val.num 1), (2023, Val.num 2)]
        = [⟨2020, some (Val.num (Rat.divInt 31 10)), none, "History"⟩,
           ⟨2021, some (Val.num (Rat.divInt 6 5)), none, "History"⟩,
           ⟨2022, none, some (Val.num 1), "Forecast"⟩,
           ⟨2023, none, some (Val.num 2), "Forecast"⟩] :=
  ⟨by decide, (c5_merged_outer_join_tags _ _ (by decide)).2.2, by decide⟩

/-- Claim C6.  Round trip: a table already in normalized form (canonical
`Year`/`Inflation_YoY` headers, numeric-or-missing cells as in the TimeSeries
data model, rows sorted by year) written to CSV by the download button and
read back by `read_csv` normalizes to the same (year, value) pairs. -/
theorem c6_roundTrip (t : Table)
    (hhdr : t.header = ["Year", "Inflation_YoY"])
    (hcells : ∀ r ∈ t.rows, ∀ v ∈ r, v.isStr = false)
    (hsorted : List.Sorted (rowLe ["Year", "Inflation_YoY"]) t.rows) :
    ∃ t', load_csv (readBack t) = .ok t' ∧ pairsOf t' = pairsOf t := by
  rw [readBack_id hcells]
  obtain ⟨hdr, rows⟩ := t
  have hhdr' : hdr = ["Year", "Inflation_YoY"] := hhdr
  subst hhdr'
  refine ⟨⟨["Year", "Inflation_YoY"], rows⟩, ?_, rfl⟩
  have hnum : numericCol (getCol ⟨["Year", "Inflation_YoY"], rows⟩ "Year") = true := by
    show (rows.map (fun r => r.getD 0 Val.missing)).all (fun v => !v.isStr) = true
    rw [List.all_eq_true]
    intro v hv
    rcases List.mem_map.mp hv with ⟨r, hr, rfl⟩
    cases r with
    | nil => rfl
    | cons a as =>
      have ha := hcells _ hr a (List.mem_cons_self _ _)
      show (!a.isStr) = true
      rw [ha]
      rfl
  have hcs : coerceStage true "Year" ⟨["Year", "Inflation_YoY"], rows⟩
      = ⟨["Year", "Inflation_YoY"], rows⟩ := by
    unfold coerceStage
    rw [hnum]
    rfl
  have hyc0 : yearColOf yearSynsHist ["Year", "Inflation_YoY"] = some "Year" := by decide
  show normalizeWith yearSynsHist value_candidates "Inflation_YoY" true
      ⟨["Year", "Inflation_YoY"], rows⟩ = _
  rw [normalizeWith_eq_some ⟨["Year", "Inflation_YoY"], rows⟩ hyc0, hcs]
  show Except.ok (sortByYear ⟨["Year", "Inflation_YoY"], rows⟩)
    = Except.ok ⟨["Year", "Inflation_YoY"], rows⟩
  rw [show sortByYear ⟨["Year", "Inflation_YoY"], rows⟩
      = ⟨["Year", "Inflation_YoY"],
          rows.insertionSort (rowLe ["Year", "Inflation_YoY"])⟩ from rfl,
    hsorted.insertionSort_eq]

/-- Claim C6, witness: the round trip at a concrete sorted numeric table. -/
theorem c6_witness :
    ∃ t', load_csv (readBack ⟨["Year", "Inflation_YoY"],
        [[Val.num 2020, Val.num (Rat.divInt 3 2)], [Val.num 2021, Val.num 2]]⟩) = .ok t'
      ∧ pairsOf t' = pairsOf ⟨["Year", "Inflation_YoY"],
          [[Val.num 2020, Val.num (Rat.divInt 3 2)], [Val.num 2021, Val.num 2]]⟩ :=
  c6_roundTrip _ (by decide) (by decide) (by decide)

/-- Claim C7.  The spec's example: a `Date, Rate` table with rows
`2020-01-01, 1.5` and `2021-01-01, 2.0` normalizes to `Year, Inflation_YoY`
with pairs `(2020, 1.5)` and `(2021, 2.0)`. -/
theorem c7_example_date_rate :
    load_csv ⟨["Date", "Rate"],
        [[Val.str "2020-01-01", Val.num (Rat.divInt 3 2)],
         [Val.str "2021-01-01", Val.num 2]]⟩
      = .ok ⟨["Year", "Inflation_YoY"],
          [[Val.num 2020, Val.num (Rat.divInt 3 2)], [Val.num 2021, Val.num 2]]⟩
    ∧ pairsOf ⟨["Year", "Inflation_YoY"],
          [[Val.num 2020, Val.num (Rat.divInt 3 2)], [Val.num 2021, Val.num 2]]⟩
        = [(Val.num 2020, Val.num (Rat.divInt 3 2)), (Val.num 2021, Val.num 2)] := by
  decide

/-- Claim C8, counterexample.  The two normalizers do not share the synonym
set: `Time` is accepted by `load_csv` but makes the forecast normalization
raise its schema error; and a non-numeric forecast year column is renamed but
never date-coerced (the date string survives). -/
theorem c8_counterexample :
    normalizeForecast ⟨["Time", "Pred"], [[Val.num 2022, Val.num 1]]⟩ = .error .schema
    ∧ load_csv ⟨["Time", "Value"], [[Val.num 2022, Val.num 1]]⟩
        = .ok ⟨["Year", "Inflation_YoY"], [[Val.num 2022, Val.num 1]]⟩
    ∧ normalizeForecast ⟨["Date", "Forecast"], [[Val.str "2024-01-01", Val.num 1]]⟩
        = .ok ⟨["Year", "Forecast"], [[Val.str "2024-01-01", Val.num 1]]⟩ := by
  decide

/-- Claim C8, amended.  The history normalizer recognizes year synonyms
`year, years, date, time, period` and coerces a non-numeric year column by
date parsing; the forecast normalizer recognizes only `year, years, date,
period` — not `time` — and renames the year column without converting its
values.  Each raises its schema error exactly when its own synonym set has no
match. -/
theorem c8_amended_synonym_sets :
    (∀ t : Table, (load_csv t = .error .schema ↔ ∀ c ∈ t.header, lowerTrim c ∉ yearSynsHist))
    ∧ (∀ t : Table, (normalizeForecast t = .error .schema
        ↔ ∀ c ∈ t.header, lowerTrim c ∉ yearSynsForecast))
    ∧ ("time" ∈ yearSynsHist ∧ "time" ∉ yearSynsForecast)
    ∧ (∀ (t t' : Table) (yc : String), yearColOf yearSynsHist t.header = some yc →
        numericCol (getCol t yc) = false → load_csv t = .ok t' →
        (getCol t' "Year").Perm ((getCol t yc).map coerceDateCell))
    ∧ (∀ (f t' : Table) (yc : String), yearColOf yearSynsForecast f.header = some yc →
        normalizeForecast f = .ok t' → (getCol t' "Year").Perm (getCol f yc)) := by
  refine ⟨fun t => normalizeWith_schema_iff, fun t => normalizeWith_schema_iff,
    by decide, ?_, ?_⟩
  · intro t t' yc hyc hnn hok
    have h := (normalizeWith_ok (by decide) (by decide) hyc hok).2.2.1
    rw [getCol_coerceStage, hnn] at h
    simpa using h
  · intro f t' yc hyc hok
    have h := (normalizeWith_ok (by decide) (by decide) hyc hok).2.2.1
    rw [getCol_coerceStage] at h
    simpa using h

/-- Claim C8, witness: a `Time` column is accepted by the history loader and
rejected by the forecast loader. -/
theorem c8_witness :
    ¬ (load_csv ⟨["Time", "Value"], [[Val.num 2022, Val.num 1]]⟩ = .error .schema)
    ∧ normalizeForecast ⟨["Time", "Value"], [[Val.num 2022, Val.num 1]]⟩ = .error .schema := by
  constructor
  · intro h
    exact absurd ((c8_amended_synonym_sets.1 _).mp h) (by decide)
  · exact (c8_amended_synonym_sets.2.1 _).mpr (by decide)

/-- Claim C9.  The date-to-year coercion is total: every year entry that
fails to parse as a date (or is already missing) becomes a missing year, not
an exception; whether `load_csv` returns a table never depends on the
coercion (success is unchanged if the coercion step is disabled); and on
success with a non-numeric year column the returned `Year` column is exactly
the coerced original values, up to the sort's permutation. -/
theorem c9_coercion_total_no_error :
    (∀ v : Val, (v = Val.missing ∨ ∃ s, v = Val.str s ∧ parseDateYear s = none) →
      coerceDateCell v = Val.missing)
    ∧ (∀ t : Table, loadSucceeds (load_csv t)
        = loadSucceeds (normalizeWith yearSynsHist value_candidates "Inflation_YoY" false t))
    ∧ (∀ (t t' : Table) (yc : String), yearColOf yearSynsHist t.header = some yc →
        numericCol (getCol t yc) = false → load_csv t = .ok t' →
        (getCol t' "Year").Perm ((getCol t yc).map coerceDateCell)) := by
  refine ⟨?_, ?_, ?_⟩
  · rintro v (rfl | ⟨s, rfl, hs⟩)
    · rfl
    · show (match parseDateYear s with
          | some y => Val.num (y : ℚ)
          | none => Val.missing) = Val.missing
      rw [hs]
  · intro t
    exact normalizeWith_succeeds_coerce _ _ _ t
  · intro t t' yc hyc hnn hok
    have h := (normalizeWith_ok (by decide) (by decide) hyc hok).2.2.1
    rw [getCol_coerceStage, hnn] at h
    simpa using h

/-- Claim C9, witness: the unparseable entry `x` appears as a missing year in
the returned table. -/
theorem c9_witness :
    (getCol (Table.mk ["Year", "Inflation_YoY"]
        [[Val.num 1999, Val.num 2], [Val.missing, Val.num 1]]) "Year").Perm
      ((getCol (Table.mk ["Date", "Rate"]
        [[Val.str "x", Val.num 1], [Val.str "1999-12-31", Val.num 2]]) "Date").map
        coerceDateCell) :=
  c9_coercion_total_no_error.2.2 _ _ "Date" (by decide) (by decide) (by decide)

/-- Claim C10.  The forecast normalization never parses dates: on success the
returned `Year` column holds exactly the original values of the matched
year-synonym column (permuted by the sort), whatever their type. -/
theorem c10_forecast_year_unconverted (f t' : Table) (yc : String)
    (hyc : yearColOf yearSynsForecast f.header = some yc)
    (hok : normalizeForecast f = .ok t') :
    (getCol t' "Year").Perm (getCol f yc) := by
  have h := (normalizeWith_ok (by decide) (by decide) hyc hok).2.2.1
  rw [getCol_coerceStage] at h
  simpa using h

/-- Claim C10, witness: a date-string year survives the forecast
normalization unconverted. -/
theorem c10_witness :
    (getCol (Table.mk ["Year", "Forecast"] [[Val.str "2026-01-01", Val.num 4]]) "Year").Perm
      (getCol (Table.mk ["Date", "Forecast"] [[Val.str "2026-01-01", Val.num 4]]) "Date") :=
  c10_forecast_year_unconverted _ _ "Date" (by decide) (by decide)

end ThaiInflation
